import Mathlib

/-!
Shallow embedding of the cppemacs value-conversion and closure-marshaling
core (include/cppemacs/core.hpp, conversions.hpp, utils.hpp) over a model
of the Emacs module ABI, together with theorems settling the claims about
it.

The Emacs host is modelled as a state: a heap of dynamically-typed host
objects, the pending non-local-exit state, a failure schedule standing for
host operations that may signal (memory pressure etc.), and an event log
recording host calls, native destructions of the boxed callable, GC
finalizer registrations, and unique_ptr releases.  Host primitives follow
the documented module ABI semantics (see the doc comments in core.hpp):
with a non-local exit pending, a host call still happens but does nothing
and returns a meaningless result.  The platform modelled is the usual LP64
one, where both emacs_limb_t and uintmax_t have 64 value bits.
-/

namespace Cppemacs

/-- An opaque Emacs value: an index into the host heap. -/
abbrev Value := Nat

/-- Dynamically-typed host objects. -/
inductive Obj where
  | integer (n : Int)
  | str (s : String)
  | symbol (name : String)
  | userPtr (fin data : Nat)
  | func (minArity maxArity : Int) (data : Nat)
  | list (elems : List Value)
  | other
deriving DecidableEq

/-- The pending non-local-exit tri-state of an environment (funcall_exit). -/
inductive Pend where
  | normal
  | sig (symbol data : Value)
  | thr (symbol data : Value)
deriving DecidableEq

/-- C++ exceptions thrown by the embedded code: cppemacs::signal,
cppemacs::thrown, cppemacs::non_local_exit, any std::exception identified
by its what() message (with exception boxing disabled, the default, all
std::exceptions are treated alike; cppemacs itself only throws
std::runtime_error), and any other exception. -/
inductive CppExc where
  | sig (symbol data : Value)
  | thr (symbol data : Value)
  | nle
  | runtimeError (what : String)
  | otherExc (id : Nat)
deriving DecidableEq

/-- Events recorded while running: a host ABI call, an immediate native
destruction of a heap allocation, the registration of a GC finalizer over
an allocation (the GC then destroys it exactly once, when the owning
object becomes unreachable), and unique_ptr::release(). -/
inductive Event where
  | hostOp (name : String)
  | destroy (data : Nat)
  | gcRegister (fin data : Nat)
  | released
deriving DecidableEq

/-- The modelled host environment state. -/
structure EmacsState where
  heap : List Obj
  pend : Pend
  sched : List Bool
  events : List Event
  version : Nat
deriving DecidableEq

/-- Append an event to the log. -/
def logEv (st : EmacsState) (e : Event) : EmacsState :=
  { st with events := st.events ++ [e] }

/-- Allocate a fresh host object, returning its value handle. -/
def alloc (st : EmacsState) (o : Obj) : Value × EmacsState :=
  (st.heap.length, { st with heap := st.heap ++ [o] })

/-- Consume the next entry of the failure schedule (true means the host
operation fails by signaling). -/
def nextFail (st : EmacsState) : Bool × EmacsState :=
  match st.sched with
  | [] => (false, st)
  | b :: rest => (b, { st with sched := rest })

/-- A host operation raised a signal; the particular symbol and data are
not specified by the model. -/
def hostError (st : EmacsState) : EmacsState :=
  { st with pend := .sig 0 0 }

/-! Host non-local-exit primitives (core.hpp:918-928).  These work even
with an exit pending and are not value operations, so they are not logged. -/

/-- envw::non_local_exit_check (core.hpp:918). -/
def non_local_exit_check (st : EmacsState) : Pend × EmacsState :=
  (st.pend, st)

/-- envw::non_local_exit_get (core.hpp:924): observes kind, symbol and data. -/
def non_local_exit_get (st : EmacsState) : Pend × EmacsState :=
  (st.pend, st)

/-- envw::non_local_exit_clear (core.hpp:921). -/
def non_local_exit_clear (st : EmacsState) : EmacsState :=
  { st with pend := .normal }

/-- envw::non_local_exit_signal (core.hpp:926). -/
def non_local_exit_signal (s d : Value) (st : EmacsState) : EmacsState :=
  { st with pend := .sig s d }

/-- envw::non_local_exit_throw (core.hpp:928). -/
def non_local_exit_throw (s d : Value) (st : EmacsState) : EmacsState :=
  { st with pend := .thr s d }

/-- envw::maybe_non_local_exit with Unbox = false, the default
(core.hpp:992-1001): throw valueless cppemacs::non_local_exit if an exit
is pending, without clearing it. -/
def maybe_non_local_exit (st : EmacsState) : Except CppExc Unit × EmacsState :=
  if st.pend = .normal then (.ok (), st) else (.error .nle, st)

/-- INTMAX_MAX on the modelled host. -/
def INTMAX_MAX : Int := 2 ^ 63 - 1

/-- INTMAX_MIN on the modelled host. -/
def INTMAX_MIN : Int := -(2 ^ 63)

/-- UINTMAX_MAX on the modelled host. -/
def UINTMAX_MAX : Nat := 2 ^ 64 - 1

/-! Host value primitives.  Each logs the call, then acts only if no exit
is pending.  intern, make_string and make_integer are modelled as always
succeeding; operations that allocate host-visible structures consult the
failure schedule. -/

/-- envw::intern (core.hpp:1074). -/
def intern (name : String) (st : EmacsState) : Value × EmacsState :=
  let st := logEv st (.hostOp "intern")
  if st.pend = .normal then alloc st (.symbol name) else (0, st)

/-- envw::make_string (core.hpp:1112). -/
def make_string (s : String) (st : EmacsState) : Value × EmacsState :=
  let st := logEv st (.hostOp "make_string")
  if st.pend = .normal then alloc st (.str s) else (0, st)

/-- envw::make_integer (core.hpp:1086). -/
def make_integer (n : Int) (st : EmacsState) : Value × EmacsState :=
  let st := logEv st (.hostOp "make_integer")
  if st.pend = .normal then alloc st (.integer n) else (0, st)

/-- envw::extract_integer (core.hpp:1084): the value of an integer that
fits intmax_t; the host signals an overflow-error for an integer outside
the intmax_t range (returning a meaningless result), and a wrong-type
error for a non-integer. -/
def extract_integer (v : Value) (st : EmacsState) : Int × EmacsState :=
  let st := logEv st (.hostOp "extract_integer")
  if st.pend = .normal then
    match st.heap[v]? with
    | some (.integer n) =>
      if n < INTMAX_MIN ∨ n > INTMAX_MAX then (0, hostError st)
      else (n, st)
    | _ => (0, hostError st)
  else (0, st)

/-- envw::is_not_nil (core.hpp:1080). -/
def is_not_nil (v : Value) (st : EmacsState) : Bool × EmacsState :=
  let st := logEv st (.hostOp "is_not_nil")
  if st.pend = .normal then
    match st.heap[v]? with
    | some (.symbol "nil") => (false, st)
    | _ => (true, st)
  else (false, st)

/-! The spreader arity dispatch of utils.hpp is compile-time
metaprogramming over index sequences; it is modelled at the value level.
What matters for the claims is which handler the jump table selects and
which argument each parameter position receives, so the outcome records
the spread argument list handed to the wrapped callable. -/

/-- An argument position of the wrapped callable: a provided argument
wrapped as a cell, a read past the end of the host argument array
(undefined behavior in C++), or a default-constructed
detail::unprovided_value_t placeholder. -/
inductive SpreadArg where
  | provided (v : Value)
  | garbageRead
  | defaulted
deriving DecidableEq

/-- The outcome of detail::spread_invoker::invoke: a call of the wrapped
callable with the given spread arguments (and, when the variadic caller is
used, a restargs view given as offset and length), the "Bad arity" throw,
or an out-of-bounds read of the constexpr jump table (undefined behavior). -/
inductive SpreadOutcome where
  | call (spread : List SpreadArg) (rest : Option (Nat × Nat))
  | badArity
  | undefinedBehavior
deriving DecidableEq

/-- detail::arg_or_default (utils.hpp:444-450): position idx receives the
host argument args[idx] as a cell if IsProvided, and a default-constructed
placeholder otherwise.  Reading args[idx] beyond the arguments the host
actually passed is marked garbageRead. -/
def arg_or_default (isProvided : Bool) (args : List Value) (idx : Nat) : SpreadArg :=
  if isProvided then
    match args[idx]? with
    | some v => .provided v
    | none => .garbageRead
  else .defaulted

/-- spreader_caller::invoke_with_arity<NArgs> (utils.hpp:454-456 and
461-465): parameter position Idx < MaxArity receives
arg_or_default<(Idx < NArgs)>(nv, args, Idx); the variadic caller
additionally passes spreader_restargs(nullptr, 0), modelled as (0, 0). -/
def invoke_with_arity (NArgs MaxArity : Nat) (isVariadic : Bool) (args : List Value) :
    SpreadOutcome :=
  .call ((List.range MaxArity).map fun Idx => arg_or_default (decide (Idx < NArgs)) args Idx)
    (if isVariadic then some (0, 0) else none)

/-- spreader_caller<true>::invoke_variadic<CallArity> (utils.hpp:466-470):
every declared position is provided, plus a restargs view over
args[CallArity..nargs). -/
def invoke_variadic (CallArity MaxArity nargs : Nat) (args : List Value) : SpreadOutcome :=
  .call ((List.range MaxArity).map fun Idx => arg_or_default true args Idx)
    (some (CallArity, nargs - CallArity))

/-- detail::spread_invoker::invoke (utils.hpp:498-516).  The constexpr
jump table Vt has MaxArity - MinArity + 1 entries, entry OffIdx being
invoke_with_arity<MinArity + OffIdx>; the source indexes it as Vt[nargs].
An index past the end of the table is undefined behavior. -/
def spread_invoke (MinArity MaxArity : Nat) (IsVariadic : Bool) (nargs : Nat)
    (args : List Value) : SpreadOutcome :=
  if IsVariadic ∧ nargs > MaxArity then
    invoke_variadic MaxArity MaxArity nargs args
  else if nargs < MinArity ∨ nargs > MaxArity then
    .badArity
  else
    match (List.range (MaxArity - MinArity + 1))[nargs]? with
    | some OffIdx => invoke_with_arity (MinArity + OffIdx) MaxArity IsVariadic args
    | none => .undefinedBehavior

/-! Big-integer host primitives (core.hpp:1176-1183, Emacs 27+).  A
magnitude is a little-endian list of limbs.  extract_big_integer on an
integer succeeds when the provided limb count can represent its absolute
value, and otherwise signals (as it does on a non-integer). -/

/-- Value bits of emacs_limb_t on the modelled host. -/
def limbDigits : Nat := 64

/-- Value bits of uintmax_t on the modelled host. -/
def uintmaxDigits : Nat := 64

/-- detail::uintmax_limb_count (conversions.hpp:112-115). -/
def uintmaxLimbCount : Nat := 1 + (limbDigits - 1) / uintmaxDigits

/-- The little-endian limbs of a magnitude, padded to count entries. -/
def limbsOf (m count : Nat) : List Nat :=
  (List.range count).map fun i => m / 2 ^ (limbDigits * i) % 2 ^ limbDigits

/-- envw::extract_big_integer (core.hpp:1176): returns success, sign, and
the magnitude written into the count-limb buffer. -/
def extract_big_integer (v : Value) (count : Nat) (st : EmacsState) :
    (Bool × Int × List Nat) × EmacsState :=
  let st := logEv st (.hostOp "extract_big_integer")
  if st.pend = .normal then
    match st.heap[v]? with
    | some (.integer n) =>
      if n.natAbs < 2 ^ (limbDigits * count) then
        ((true, Int.sign n, limbsOf n.natAbs count), st)
      else
        ((false, 0, List.replicate count 0), hostError st)
    | _ => ((false, 0, List.replicate count 0), hostError st)
  else ((false, 0, List.replicate count 0), st)

/-- envw::make_big_integer (core.hpp:1182). -/
def make_big_integer (sign : Int) (count : Nat) (magnitude : List Nat)
    (st : EmacsState) : Value × EmacsState :=
  let st := logEv st (.hostOp "make_big_integer")
  if st.pend = .normal then
    let m : Nat := ((List.range count).map fun i => magnitude.getD i 0 * 2 ^ (limbDigits * i)).sum
    alloc st (.integer (sign * m))
  else (0, st)

/-- envw::copy_string_contents (core.hpp:1107): with no buffer, reports
the required size (UTF-8 bytes plus the terminator) and returns true;
with a buffer of sufficient size, copies the contents; with a too-small
buffer or a non-string it signals and returns false. -/
def copy_string_contents (v : Value) (haveBuffer : Bool) (size : Nat)
    (st : EmacsState) : (Bool × Nat × String) × EmacsState :=
  let st := logEv st (.hostOp "copy_string_contents")
  if st.pend = .normal then
    match st.heap[v]? with
    | some (.str s) =>
      let required := s.utf8ByteSize + 1
      if haveBuffer = false then ((true, required, ""), st)
      else if size < required then ((false, required, ""), hostError st)
      else ((true, size, s), st)
    | _ => ((false, size, ""), hostError st)
  else ((false, size, ""), st)

/-! The type-directed conversions of conversions.hpp. -/

/-- to_emacs for bool (conversions.hpp:150): intern t or nil. -/
def to_emacs_bool (x : Bool) (st : EmacsState) : Value × EmacsState :=
  intern (if x then "t" else "nil") st

/-- from_emacs for bool (conversions.hpp:152): is_not_nil. -/
def from_emacs_bool (v : Value) (st : EmacsState) : Bool × EmacsState :=
  is_not_nil v st

/-- to_emacs for an integral type whose range is a subset of intmax_t
(conversions.hpp:160-162): make_integer of the widened value. -/
def to_emacs_integral (n : Int) (st : EmacsState) : Value × EmacsState :=
  make_integer n st

/-- from_emacs for an integral type T whose range is a subset of
intmax_t (conversions.hpp:194-203), with lo and hi standing for
numeric_limits of T: extract, check the exit state, then range-check. -/
def from_emacs_integral (lo hi : Int) (v : Value) (st : EmacsState) :
    Except CppExc Int × EmacsState :=
  let (int_val, st) := extract_integer v st
  match maybe_non_local_exit st with
  | (.error e, st) => (.error e, st)
  | (.ok _, st) =>
    if int_val < lo ∨ int_val > hi then
      (.error (.runtimeError "Integer out of range"), st)
    else
      (.ok int_val, st)

/-- to_emacs for std::string (conversions.hpp:127). -/
def to_emacs_string (s : String) (st : EmacsState) : Value × EmacsState :=
  make_string s st

/-- The shared fallthrough of from_emacs for std::string
(conversions.hpp:145-146): maybe_non_local_exit, then throw
runtime_error("String conversion failed"). -/
def string_conversion_failed (st : EmacsState) : Except CppExc String × EmacsState :=
  match maybe_non_local_exit st with
  | (.error e, st) => (.error e, st)
  | (.ok _, st) => (.error (.runtimeError "String conversion failed"), st)

/-- from_emacs for std::string (conversions.hpp:137-147): two-pass query
then fill. -/
def from_emacs_string (v : Value) (st : EmacsState) : Except CppExc String × EmacsState :=
  let ((ok, len, _), st) := copy_string_contents v false 0 st
  if ok then
    let ((ok2, _, ret), st) := copy_string_contents v true len st
    if ok2 then (.ok ret, st)
    else string_conversion_failed st
  else string_conversion_failed st

/-- CPPEMACS_CHECK_VERSION(nv, 27): throws runtime_error("Emacs 27+
required") when the environment is older than Emacs 27. -/
def check_version_27 (st : EmacsState) : Except CppExc Unit × EmacsState :=
  if st.version < 27 then (.error (.runtimeError "Emacs 27+ required"), st)
  else (.ok (), st)

/-- to_emacs for uintmax_t (conversions.hpp:167-185): values above
INTMAX_MAX go through make_big_integer with the single-limb magnitude
(CPPEMACS_UINTMAX_ONE_LIMB holds on the modelled host), others through
the intmax_t conversion. -/
def to_emacs_uintmax (n : Nat) (st : EmacsState) : Except CppExc Value × EmacsState :=
  match check_version_27 st with
  | (.error e, st) => (.error e, st)
  | (.ok _, st) =>
    if (n : Int) > INTMAX_MAX then
      let magnitude : List Nat := [n]
      let (v, st) := make_big_integer 1 uintmaxLimbCount magnitude st
      (.ok v, st)
    else
      let (v, st) := to_emacs_integral (n : Int) st
      (.ok v, st)

/-- from_emacs for uintmax_t (conversions.hpp:208-236): always use the
bigint conversion with uintmax_limb_count limbs, reject failure or a
negative sign, then check the top limb against 1 << (uintmaxDigits %
limbDigits), and return the single limb (the
CPPEMACS_UINTMAX_ONE_LIMB case of the source). -/
def from_emacs_uintmax (v : Value) (st : EmacsState) : Except CppExc Nat × EmacsState :=
  match check_version_27 st with
  | (.error e, st) => (.error e, st)
  | (.ok _, st) =>
    let ((ok, sign, magnitude), st) := extract_big_integer v uintmaxLimbCount st
    if ok = false ∨ sign < 0 then
      match maybe_non_local_exit st with
      | (.error e, st) => (.error e, st)
      | (.ok _, st) => (.error (.runtimeError "Integer out of range"), st)
    else
      let ndigits : Nat := uintmaxDigits % limbDigits
      if magnitude.getD (uintmaxLimbCount - 1) 0 ≥ 1 <<< ndigits then
        (.error (.runtimeError "Integer out of range"), st)
      else
        (.ok (magnitude.getD 0 0), st)

/-- A fresh Emacs 28 environment with an empty heap, no pending exit and
no host failures. -/
def initState : EmacsState :=
  { heap := [], pend := .normal, sched := [], events := [], version := 28 }

/-- An environment whose heap holds the single integer n. -/
def intHeapState (n : Int) : EmacsState :=
  { heap := [.integer n], pend := .normal, sched := [], events := [], version := 28 }

/-! Embedded-pointer and function host primitives. -/

/-- envw::make_user_ptr (core.hpp:1121): on success the finalizer is
registered with the GC, which will run it exactly once when the value
becomes unreachable; on failure nothing is registered. -/
def make_user_ptr (fin data : Nat) (st : EmacsState) : Value × EmacsState :=
  let st := logEv st (.hostOp "make_user_ptr")
  if st.pend = .normal then
    let (b, st) := nextFail st
    if b then (0, hostError st)
    else
      let (v, st) := alloc st (.userPtr fin data)
      (v, logEv st (.gcRegister fin data))
  else (0, st)

/-- envw::get_user_finalizer (core.hpp:1133): the registered finalizer of
a user-ptr, or a wrong-type signal. -/
def get_user_finalizer (v : Value) (st : EmacsState) : Nat × EmacsState :=
  let st := logEv st (.hostOp "get_user_finalizer")
  if st.pend = .normal then
    match st.heap[v]? with
    | some (.userPtr f _) => (f, st)
    | _ => (0, hostError st)
  else (0, st)

/-- envw::get_user_ptr (core.hpp:1127). -/
def get_user_ptr (v : Value) (st : EmacsState) : Nat × EmacsState :=
  let st := logEv st (.hostOp "get_user_ptr")
  if st.pend = .normal then
    match st.heap[v]? with
    | some (.userPtr _ d) => (d, st)
    | _ => (0, hostError st)
  else (0, st)

/-- envw::make_function (core.hpp:1054): a module function carrying the
given data pointer. -/
def make_function (minArity maxArity : Int) (data : Nat) (st : EmacsState) :
    Value × EmacsState :=
  let st := logEv st (.hostOp "make_function")
  if st.pend = .normal then
    let (b, st) := nextFail st
    if b then (0, hostError st)
    else alloc st (.func minArity maxArity data)
  else (0, st)

/-- envw::set_function_finalizer (core.hpp:1195, Emacs 28+): on success
the finalizer is registered with the GC over the function's data pointer. -/
def set_function_finalizer (v : Value) (fin : Nat) (st : EmacsState) : EmacsState :=
  let st := logEv st (.hostOp "set_function_finalizer")
  if st.pend = .normal then
    let (b, st) := nextFail st
    if b then hostError st
    else
      match st.heap[v]? with
      | some (.func _ _ data) => logEv st (.gcRegister fin data)
      | _ => hostError st
  else st

/-- A host function call about whose behavior the model says nothing
beyond success or scheduled failure: on success a fresh opaque result. -/
def funcall_generic (st : EmacsState) : Value × EmacsState :=
  let (b, st) := nextFail st
  if b then (0, hostError st)
  else alloc st .other

/-- envw::funcall (core.hpp:1065).  Calling the Lisp function error
signals with the symbol error and the argument list as data (this is what
run_catching relies on); any other call either succeeds with a fresh
opaque result or fails according to the failure schedule. -/
def funcall (f : Value) (args : List Value) (st : EmacsState) : Value × EmacsState :=
  let st := logEv st (.hostOp "funcall")
  if st.pend = .normal then
    match st.heap[f]? with
    | some (.symbol name) =>
      if name = "error" then
        let (dv, st) := alloc st (.list args)
        (0, { st with pend := .sig f dv })
      else funcall_generic st
    | _ => funcall_generic st
  else (0, st)

/-! The non-local-exit state machine of core.hpp. -/

/-- envw::rethrow_non_local_exit with Unbox = false, the default
(core.hpp:944-973): a no-op when no exit is pending, otherwise clears the
host state and throws cppemacs::signal or cppemacs::thrown carrying the
pending symbol and data. -/
def rethrow_non_local_exit (st : EmacsState) : Except CppExc Unit × EmacsState :=
  let (kind, st) := non_local_exit_get st
  match kind with
  | .normal => (.ok (), st)
  | .sig s d =>
    let st := non_local_exit_clear st
    (.error (.sig s d), st)
  | .thr s d =>
    let st := non_local_exit_clear st
    (.error (.thr s d), st)

/-- The shared error-raising pattern of run_catching_handle_current:
funcall(intern("error"), with the message as its one argument). -/
def error_call (msg : String) (st : EmacsState) : Value × EmacsState :=
  let r₁ := intern "error" st
  let r₂ := make_string msg r₁.2
  funcall r₁.1 [r₂.1] r₂.2

/-- envw::run_catching_handle_current with Box = false, the default
(core.hpp:1266-1322): if an exit is already pending, do nothing;
otherwise replay cppemacs::signal and cppemacs::thrown exactly, and turn
every other exception into a call of the Lisp error function (whose
message is the what() of a std::exception, a fixed message otherwise). -/
def run_catching_handle_current (e : CppExc) (st : EmacsState) : EmacsState :=
  if st.pend ≠ .normal then st
  else
    match e with
    | .sig s d => non_local_exit_signal s d st
    | .thr s d => non_local_exit_throw s d st
    | .nle => (error_call "Expected non-local exit" st).2
    | .runtimeError what => (error_call what st).2
    | .otherExc _ => (error_call "Unrecognised exception" st).2

/-- envw::run_catching for a throwing callable, with Box = false
(core.hpp:1325-1339): catch everything, hand it to
run_catching_handle_current, and return a default-constructed value. -/
def run_catching (f : EmacsState → Except CppExc Value × EmacsState)
    (st : EmacsState) : Except CppExc Value × EmacsState :=
  match f st with
  | (.ok v, st) => (.ok v, st)
  | (.error e, st) => (.ok 0, run_catching_handle_current e st)

/-- module_function::invoke (utils.hpp:329-336): the noexcept entry point
registered with the host, which runs the stored callable (data extraction
and argument passing are bundled into f here) under run_catching. -/
def module_function_invoke (f : EmacsState → Except CppExc Value × EmacsState)
    (st : EmacsState) : Except CppExc Value × EmacsState :=
  run_catching f st

/-! The boxed closure representation (utils.hpp:167-219). -/

/-- Native code destroys the boxed callable right now (the unique_ptr
destructor, or an explicit finalizer invocation). -/
def destroyNow (data : Nat) (st : EmacsState) : EmacsState :=
  logEv st (.destroy data)

/-- module_function_repr::make for a boxed callable (utils.hpp:172-218).
fdata is the heap allocation holding the moved-in callable and fin its
user_ptr finalizer; the unique_ptr owns fdata until released.  On hosts
with function finalizers (Emacs 28+) the finalizer is attached directly;
otherwise the function is rebound to a fresh symbol, a finalizer-bearing
user-ptr is made, ownership is released once that creation is confirmed,
and the placeholder is linked to the symbol with put. -/
def module_function_repr_make (minArity maxArity : Int) (fin fdata : Nat)
    (st : EmacsState) : Option Value × EmacsState :=
  if st.pend ≠ .normal then (none, st)
  else
    -- std::unique_ptr<F> fptr(new F(std::move(f)))
    let (retfn, st) := make_function minArity maxArity fdata st
    if st.version ≥ 28 then
      -- function finalizers are available: attach one directly
      let st := set_function_finalizer retfn fin st
      if st.pend ≠ .normal then (none, destroyNow fdata st)
      else (some retfn, logEv st .released)
    else
      let (make_symbol, st) := intern "make-symbol" st
      let (strv, st) := make_string "cpp--finalized-fun" st
      let (func_sym, st) := funcall make_symbol [strv] st
      let (defalias, st) := intern "defalias" st
      let (_, st) := funcall defalias [func_sym, retfn] st
      -- make a user pointer as a finalizer
      let (finalizer, st) := make_user_ptr fin fdata st
      if st.pend ≠ .normal then (none, destroyNow fdata st)
      else
        -- the finalizer was created successfully, F is now managed by the GC
        let st := logEv st .released
        let (putSym, st) := intern "put" st
        let (dataPtrSym, st) := intern "cpp--data-ptr" st
        let (_, st) := funcall putSym [func_sym, dataPtrSym, finalizer] st
        if st.pend ≠ .normal then (none, st)
        else (some func_sym, st)

/-- The number of immediate native destructions of the allocation d in an
event log. -/
def destroys (d : Nat) : List Event → Nat
  | [] => 0
  | .destroy d' :: evs => (if d' = d then 1 else 0) + destroys d evs
  | _ :: evs => destroys d evs

/-- The number of GC finalizer registrations of (fin, d) in an event log;
each will destroy the allocation exactly once, at collection time. -/
def gcRegs (fin d : Nat) : List Event → Nat
  | [] => 0
  | .gcRegister f' d' :: evs =>
    (if f' = fin ∧ d' = d then 1 else 0) + gcRegs fin d evs
  | _ :: evs => gcRegs fin d evs

/-! The typed user_ptr wrapper (utils.hpp:66-139).  Each instantiation
user_ptr<T, Deleter> has its own static fin function; finalizers are
modelled as numeric tags. -/

/-- to_emacs for user_ptr (utils.hpp:111-120): if an exit is pending on
entry, or one appears from make_user_ptr, run the finalizer immediately;
otherwise the GC owns the object. -/
def to_emacs_user_ptr (fin data : Nat) (st : EmacsState) : Value × EmacsState :=
  -- value ret; (uninitialized: 0 stands for its garbage contents)
  if st.pend ≠ .normal then (0, destroyNow data st)
  else
    let (ret, st) := make_user_ptr fin data st
    if st.pend ≠ .normal then (ret, destroyNow data st)
    else (ret, st)

/-- from_emacs for user_ptr (utils.hpp:131-138): type-check by comparing
the registered finalizer with this instantiation's fin, then return the
embedded pointer. -/
def from_emacs_user_ptr (finT : Nat) (v : Value) (st : EmacsState) :
    Except CppExc Nat × EmacsState :=
  let (fin, st) := get_user_finalizer v st
  match maybe_non_local_exit st with
  | (.error e, st) => (.error e, st)
  | (.ok _, st) =>
    if fin ≠ finT then (.error (.runtimeError "User ptr type mismatch"), st)
    else
      let (p, st) := get_user_ptr v st
      (.ok p, st)

/-! envw::extract (core.hpp:1250-1255): from_emacs followed by
maybe_non_local_exit. -/

/-- envw::extract for an integral type. -/
def extract_integral (lo hi : Int) (v : Value) (st : EmacsState) :
    Except CppExc Int × EmacsState :=
  match from_emacs_integral lo hi v st with
  | (.error e, st) => (.error e, st)
  | (.ok ret, st) =>
    match maybe_non_local_exit st with
    | (.error e, st) => (.error e, st)
    | (.ok _, st) => (.ok ret, st)

/-- envw::extract for std::string. -/
def extract_string (v : Value) (st : EmacsState) :
    Except CppExc String × EmacsState :=
  match from_emacs_string v st with
  | (.error e, st) => (.error e, st)
  | (.ok ret, st) =>
    match maybe_non_local_exit st with
    | (.error e, st) => (.error e, st)
    | (.ok _, st) => (.ok ret, st)

/-! The round trips of claim C3: from_emacs applied to to_emacs, starting
from a fresh environment. -/

/-- Round trip of a std::string. -/
def roundtrip_string (s : String) : Except CppExc String × EmacsState :=
  let (v, st) := to_emacs_string s initState
  from_emacs_string v st

/-- Round trip of a bool. -/
def roundtrip_bool (x : Bool) : Bool × EmacsState :=
  let (v, st) := to_emacs_bool x initState
  from_emacs_bool v st

/-- Round trip of an integral value of a type with limits [lo, hi]. -/
def roundtrip_integral (lo hi n : Int) : Except CppExc Int × EmacsState :=
  let (v, st) := to_emacs_integral n initState
  from_emacs_integral lo hi v st

/-- Round trip of a uintmax_t value. -/
def roundtrip_uintmax (n : Nat) : Except CppExc Nat × EmacsState :=
  match to_emacs_uintmax n initState with
  | (.error e, st) => (.error e, st)
  | (.ok v, st) => from_emacs_uintmax v st

/-- The boxed hand-off run on a host without function finalizers (Emacs
27), from a fresh normal environment with the given failure schedule. -/
def handoff_run (minArity maxArity : Int) (fin fdata : Nat) (sched : List Bool) :
    Option Value × EmacsState :=
  module_function_repr_make minArity maxArity fin fdata
    { heap := [], pend := .normal, sched := sched, events := [], version := 27 }

/-- An environment with an exit already pending and an integer on the
heap. -/
def pendingIntState : EmacsState :=
  { heap := [.integer 5], pend := .sig 0 0, sched := [], events := [], version := 28 }

/-- An environment holding two independently created user pointers of
distinct types: finalizer 1 over pointer 10, finalizer 2 over pointer 20. -/
def twoUserPtrState : EmacsState :=
  { heap := [.userPtr 1 10, .userPtr 2 20], pend := .normal, sched := [],
    events := [], version := 28 }

/-! End of definitions; helper lemmas and the claim theorems follow. -/

/-- Looking up the first freshly appended object. -/
theorem get_append_len0 {α : Type} (l t : List α) (a : α) :
    ((l ++ [a]) ++ t)[l.length]? = some a := by
  induction l with
  | nil => simp
  | cons x xs ih => simpa using ih

/-- Looking up the second freshly appended object. -/
theorem get_append_len1 {α : Type} (l t : List α) (a b : α) :
    (((l ++ [a]) ++ [b]) ++ t)[l.length + 1]? = some b := by
  induction l with
  | nil => simp
  | cons x xs ih => simpa using ih

/-- Looking up the third freshly appended object. -/
theorem get_append_len2 {α : Type} (l : List α) (a b c : α) :
    (((l ++ [a]) ++ [b]) ++ [c])[l.length + 1 + 1]? = some c := by
  induction l with
  | nil => simp
  | cons x xs ih => simpa using ih

/-- Looking up the first of three freshly appended objects. -/
theorem get_append_len0₃ {α : Type} (l : List α) (a b c : α) :
    (((l ++ [a]) ++ [b]) ++ [c])[l.length]? = some a := by
  induction l with
  | nil => simp
  | cons x xs ih => simpa using ih

/-- The state produced by the error-raising pattern from a normal state:
the error symbol, the message string and the data list are allocated, and
a signal with that symbol and data becomes pending. -/
theorem error_call_state (msg : String) (st : EmacsState) (hp : st.pend = .normal) :
    error_call msg st =
      (0, { st with
        heap := ((st.heap ++ [.symbol "error"]) ++ [.str msg])
          ++ [.list [st.heap.length + 1]],
        pend := .sig st.heap.length (st.heap.length + 1 + 1),
        events := ((st.events ++ [.hostOp "intern"]) ++ [.hostOp "make_string"])
          ++ [.hostOp "funcall"] }) := by
  simp only [error_call, intern, make_string, funcall, alloc, logEv, hp,
    if_true, List.length_append, List.length_cons, List.length_nil,
    get_append_len0]

/-- C1: for a spreader function with declared arity [1, 4], dispatch is
claimed to go through the jump table indexed by nargs - MinArity, with the
selected handler passing exactly nargs provided arguments and the rest
defaulted.  The source instead indexes the table with nargs itself
(utils.hpp:514): a call with nargs = 4 reads past the end of the
four-entry table (undefined behavior), and a call with nargs = 1 selects
the handler for arity 2, which passes args[1] (never provided by the host)
as a provided argument.  With MinArity = MaxArity = 1 (as
tests/main.cpp:54) even the only legal call is out of bounds, while with
MinArity = 0 the two indexings coincide and the intended behavior appears. -/
theorem spread_invoke_indexes_table_by_nargs :
    spread_invoke 1 4 false 4 [10, 11, 12, 13] = .undefinedBehavior
    ∧ spread_invoke 1 4 false 1 [10] =
        .call [.provided 10, .garbageRead, .defaulted, .defaulted] none
    ∧ spread_invoke 1 1 false 1 [10] = .undefinedBehavior
    ∧ spread_invoke 0 3 false 2 [10, 11] =
        .call [.provided 10, .provided 11, .defaulted] none
    ∧ spread_invoke 1 4 false 0 [] = .badArity
    ∧ spread_invoke 1 4 false 5 [10, 11, 12, 13, 14] = .badArity := by
  decide

/-- C2: decoding a negative Emacs integer as uintmax_t does fail with the
out-of-range error, but decoding the value INTMAX_MAX, claimed to
succeed, also fails: the guard magnitude[0] >= (1 << (64 % 64)), i.e.
magnitude[0] >= 1 (conversions.hpp:220-225), rejects every nonzero
magnitude, so only the integer 0 decodes successfully.  This contradicts
the repository's own tests (test_conversions.cpp:84-86). -/
theorem from_emacs_uintmax_rejects_all_nonzero :
    (from_emacs_uintmax 0 (intHeapState (-5))).1 =
      .error (.runtimeError "Integer out of range")
    ∧ (from_emacs_uintmax 0 (intHeapState (2 ^ 63 - 1))).1 =
      .error (.runtimeError "Integer out of range")
    ∧ (from_emacs_uintmax 0 (intHeapState 1)).1 =
      .error (.runtimeError "Integer out of range")
    ∧ (from_emacs_uintmax 0 (intHeapState 0)).1 = .ok 0 := by
  refine ⟨rfl, rfl, rfl, rfl⟩

/-- C3: the round-trip law holds for the concrete cases of the claim —
the string "abcd", both booleans, the ints 123 and INT_MIN, and the
boundary integers INTMAX_MAX and INTMAX_MIN — but fails for UINTMAX_MAX
as uintmax_t: the decode direction rejects every nonzero value
(conversions.hpp:220-225), contradicting test_conversions.cpp:84. -/
theorem roundtrip_laws_except_uintmax :
    (roundtrip_string "abcd").1 = .ok "abcd"
    ∧ (roundtrip_bool true).1 = true
    ∧ (roundtrip_bool false).1 = false
    ∧ (roundtrip_integral (-(2 ^ 31)) (2 ^ 31 - 1) 123).1 = .ok 123
    ∧ (roundtrip_integral (-(2 ^ 31)) (2 ^ 31 - 1) (-(2 ^ 31))).1 = .ok (-(2 ^ 31))
    ∧ (roundtrip_integral INTMAX_MIN INTMAX_MAX INTMAX_MAX).1 = .ok INTMAX_MAX
    ∧ (roundtrip_integral INTMAX_MIN INTMAX_MAX INTMAX_MIN).1 = .ok INTMAX_MIN
    ∧ (roundtrip_uintmax UINTMAX_MAX).1 =
        .error (.runtimeError "Integer out of range")
    ∧ (roundtrip_uintmax 0).1 = .ok 0 := by
  exact ⟨rfl, rfl, rfl, rfl, rfl, rfl, rfl, rfl, rfl⟩

/-- C6 counterexample: the out-of-range error is the fixed message
"Integer out of range" (conversions.hpp:200); two different offending
values decoded as a short produce identical errors, so the error carries
neither the offending value nor the valid bounds. -/
theorem integral_range_error_is_bare :
    (from_emacs_integral (-32768) 32767 0 (intHeapState (2 ^ 31))).1 =
      .error (.runtimeError "Integer out of range")
    ∧ (from_emacs_integral (-32768) 32767 0 (intHeapState (2 ^ 31 + 1))).1 =
      .error (.runtimeError "Integer out of range")
    ∧ (2 ^ 31 : Int) ≠ 2 ^ 31 + 1 := by
  exact ⟨rfl, rfl, by decide⟩

/-- C6 as amended: decoding an Emacs integer as an integral type with
limits [lo, hi] returns exactly the value when it is in range and never
truncates.  Out-of-range decoding always fails, in one of two ways: a
value outside intmax_t itself makes the host extract_integer signal an
overflow-error, which surfaces as the exit-pending failure before the
range check is reached; a representable value outside [lo, hi] fails the
range check with the runtime error "Integer out of range" — a fixed
message carrying neither the offending value nor the bounds. -/
theorem from_emacs_integral_range_checks (lo hi v : Int) :
    (from_emacs_integral lo hi 0 (intHeapState v)).1 =
      if v < INTMAX_MIN ∨ v > INTMAX_MAX then .error .nle
      else if v < lo ∨ v > hi then .error (.runtimeError "Integer out of range")
      else .ok v := by
  by_cases hbig : v < INTMAX_MIN ∨ v > INTMAX_MAX
  · simp [from_emacs_integral, extract_integer, intHeapState,
      maybe_non_local_exit, logEv, hostError, hbig]
  · by_cases hrange : v < lo ∨ v > hi
    · simp [from_emacs_integral, extract_integer, intHeapState,
        maybe_non_local_exit, logEv, hostError, hbig, hrange]
    · simp [from_emacs_integral, extract_integer, intHeapState,
        maybe_non_local_exit, logEv, hostError, hbig, hrange]

/-- C7 counterexample: with a non-local exit already pending on entry,
envw::extract does fail with the exit-pending condition, but only after
performing the host decode operation — the extract_integer host call is
in the event log — contrary to the claim that no host decode operation is
performed. -/
theorem extract_decodes_before_checking :
    (extract_integral (-128) 127 0 pendingIntState).1 = .error .nle
    ∧ Event.hostOp "extract_integer" ∈
        (extract_integral (-128) 127 0 pendingIntState).2.events := by
  exact ⟨rfl, by decide⟩

/-- C8: rethrow_non_local_exit (with Unbox = false, the default) is a
no-op returning normally on a normal state, leaving the state unchanged;
on a pending signal or throw it clears the host state and throws
cppemacs::signal or cppemacs::thrown carrying exactly the pending symbol
and data. -/
theorem rethrow_characterization (st : EmacsState) :
    (st.pend = .normal → rethrow_non_local_exit st = (.ok (), st))
    ∧ (∀ s d, st.pend = .sig s d →
        rethrow_non_local_exit st = (.error (.sig s d), { st with pend := .normal }))
    ∧ (∀ s d, st.pend = .thr s d →
        rethrow_non_local_exit st = (.error (.thr s d), { st with pend := .normal })) := by
  refine ⟨?_, ?_, ?_⟩
  · intro h
    simp [rethrow_non_local_exit, non_local_exit_get, non_local_exit_clear, h]
  · intro s d h
    simp [rethrow_non_local_exit, non_local_exit_get, non_local_exit_clear, h]
  · intro s d h
    simp [rethrow_non_local_exit, non_local_exit_get, non_local_exit_clear, h]

/-- C8 witness: the three cases at concrete states. -/
theorem rethrow_characterization_witness :
    rethrow_non_local_exit initState = (.ok (), initState)
    ∧ rethrow_non_local_exit { initState with pend := .sig 3 4 } =
        (.error (.sig 3 4), { initState with pend := .normal })
    ∧ rethrow_non_local_exit { initState with pend := .thr 5 6 } =
        (.error (.thr 5 6), { initState with pend := .normal }) :=
  ⟨(rethrow_characterization initState).1 rfl,
   (rethrow_characterization { initState with pend := .sig 3 4 }).2.1 3 4 rfl,
   (rethrow_characterization { initState with pend := .thr 5 6 }).2.2 5 6 rfl⟩

/-- C9: decoding a value that is a user-ptr with registered finalizer f
and embedded pointer d as user_ptr with finalizer finT succeeds with
exactly d if and only if f equals finT (the check compares the finalizer
function pointers, utils.hpp:131-138); otherwise it fails with the type
mismatch error. -/
theorem user_ptr_typecheck_by_finalizer (st : EmacsState) (v : Value)
    (f d finT : Nat) (hp : st.pend = .normal)
    (hv : st.heap[v]? = some (.userPtr f d)) :
    ((from_emacs_user_ptr finT v st).1 = .ok d ↔ f = finT)
    ∧ (f ≠ finT → (from_emacs_user_ptr finT v st).1 =
        .error (.runtimeError "User ptr type mismatch")) := by
  have hrun : (from_emacs_user_ptr finT v st).1 =
      if f = finT then .ok d
      else .error (.runtimeError "User ptr type mismatch") := by
    by_cases hf : f = finT <;>
      simp [from_emacs_user_ptr, get_user_finalizer, get_user_ptr,
        maybe_non_local_exit, logEv, hp, hv, hf]
  rw [hrun]
  by_cases hf : f = finT <;> simp [hf]

/-- C9 witness: two independently created user pointers of distinct types
each decode as their own type and fail as the other. -/
theorem user_ptr_typecheck_witness :
    (from_emacs_user_ptr 1 0 twoUserPtrState).1 = .ok 10
    ∧ (from_emacs_user_ptr 2 1 twoUserPtrState).1 = .ok 20
    ∧ (from_emacs_user_ptr 2 0 twoUserPtrState).1 =
        .error (.runtimeError "User ptr type mismatch")
    ∧ (from_emacs_user_ptr 1 1 twoUserPtrState).1 =
        .error (.runtimeError "User ptr type mismatch") :=
  ⟨(user_ptr_typecheck_by_finalizer twoUserPtrState 0 1 10 1 rfl rfl).1.mpr rfl,
   (user_ptr_typecheck_by_finalizer twoUserPtrState 1 2 20 2 rfl rfl).1.mpr rfl,
   (user_ptr_typecheck_by_finalizer twoUserPtrState 0 1 10 2 rfl rfl).2 (by decide),
   (user_ptr_typecheck_by_finalizer twoUserPtrState 1 2 20 1 rfl rfl).2 (by decide)⟩

/-- C10: converting an owned user_ptr to Emacs destroys the object
exactly once on every path: with an exit pending on entry, or when
make_user_ptr fails, the finalizer runs immediately by native code, no
host object is created, and the heap is unchanged; on success the GC
finalizer registration is the single destruction and native code does not
run the deleter. -/
theorem user_ptr_to_emacs_owns_exactly_once (st : EmacsState) (fin data : Nat)
    (hev : st.events = []) :
    destroys data (to_emacs_user_ptr fin data st).2.events
      + gcRegs fin data (to_emacs_user_ptr fin data st).2.events = 1
    ∧ (st.pend ≠ .normal →
        destroys data (to_emacs_user_ptr fin data st).2.events = 1
        ∧ (to_emacs_user_ptr fin data st).2.heap = st.heap)
    ∧ (st.pend = .normal → st.sched.headD false = true →
        destroys data (to_emacs_user_ptr fin data st).2.events = 1
        ∧ (to_emacs_user_ptr fin data st).2.heap = st.heap)
    ∧ (st.pend = .normal → st.sched.headD false = false →
        destroys data (to_emacs_user_ptr fin data st).2.events = 0
        ∧ (to_emacs_user_ptr fin data st).2.heap[(to_emacs_user_ptr fin data st).1]? =
            some (.userPtr fin data)) := by
  by_cases hp : st.pend = .normal
  · rcases hs : st.sched with _ | ⟨b, rest⟩
    · simp [to_emacs_user_ptr, make_user_ptr, nextFail, destroyNow, alloc, logEv,
        hostError, destroys, gcRegs, hp, hs, hev, get_append_len0]
    · cases b
      · simp [to_emacs_user_ptr, make_user_ptr, nextFail, destroyNow, alloc, logEv,
          hostError, destroys, gcRegs, hp, hs, hev, get_append_len0]
      · simp [to_emacs_user_ptr, make_user_ptr, nextFail, destroyNow, alloc, logEv,
          hostError, destroys, gcRegs, hp, hs, hev]
  · simp [to_emacs_user_ptr, make_user_ptr, destroyNow, alloc, logEv, hostError,
      destroys, gcRegs, hp, hev]

/-- C10 witness: the theorem applied at a concrete fresh environment. -/
theorem user_ptr_to_emacs_owns_exactly_once_witness :
    destroys 9 (to_emacs_user_ptr 7 9 initState).2.events
      + gcRegs 7 9 (to_emacs_user_ptr 7 9 initState).2.events = 1 :=
  (user_ptr_to_emacs_owns_exactly_once initState 7 9 rfl).1

/-- C7 as amended: envw::extract (shown for the integral and the string
conversions) never returns a value unless the exit state was normal both
on entry and after the decode; with an exit pending on entry it fails
with the exit-pending condition — but only after the host decode
operation has been attempted (harmlessly: its meaningless result is
discarded). -/
theorem extract_checks_exit_state (lo hi : Int) (v : Value) (st : EmacsState) :
    (st.pend ≠ .normal →
      (extract_integral lo hi v st).1 = .error .nle
      ∧ Event.hostOp "extract_integer" ∈ (extract_integral lo hi v st).2.events)
    ∧ (∀ t st', extract_integral lo hi v st = (.ok t, st') →
        st.pend = .normal ∧ st'.pend = .normal)
    ∧ (st.pend ≠ .normal →
      (extract_string v st).1 = .error .nle
      ∧ Event.hostOp "copy_string_contents" ∈ (extract_string v st).2.events)
    ∧ (∀ s st', extract_string v st = (.ok s, st') →
        st.pend = .normal ∧ st'.pend = .normal) := by
  refine ⟨?_, ?_, ?_, ?_⟩
  · intro h
    simp [extract_integral, from_emacs_integral, extract_integer,
      maybe_non_local_exit, logEv, h]
  · intro t st' hok
    by_cases h : st.pend = .normal
    · refine ⟨h, ?_⟩
      unfold extract_integral at hok
      rcases hfe : from_emacs_integral lo hi v st with ⟨r, st₁⟩
      rw [hfe] at hok
      cases r with
      | error e => simp at hok
      | ok ret =>
        unfold maybe_non_local_exit at hok
        by_cases h1 : st₁.pend = .normal
        · simp only [h1, if_true] at hok
          have h2 := congrArg Prod.snd hok
          simp only at h2
          rw [← h2]
          exact h1
        · simp [h1] at hok
    · simp [extract_integral, from_emacs_integral, extract_integer,
        maybe_non_local_exit, logEv, h] at hok
  · intro h
    simp [extract_string, from_emacs_string, copy_string_contents,
      string_conversion_failed, maybe_non_local_exit, logEv, h]
  · intro s st' hok
    by_cases h : st.pend = .normal
    · refine ⟨h, ?_⟩
      unfold extract_string at hok
      rcases hfe : from_emacs_string v st with ⟨r, st₁⟩
      rw [hfe] at hok
      cases r with
      | error e => simp at hok
      | ok ret =>
        unfold maybe_non_local_exit at hok
        by_cases h1 : st₁.pend = .normal
        · simp only [h1, if_true] at hok
          have h2 := congrArg Prod.snd hok
          simp only at h2
          rw [← h2]
          exact h1
        · simp [h1] at hok
    · simp [extract_string, from_emacs_string, copy_string_contents,
        string_conversion_failed, maybe_non_local_exit, logEv, h] at hok

/-- C7 witness: the amended theorem applied with the exit pending on
entry. -/
theorem extract_checks_exit_state_witness :
    (extract_integral (-128) 127 0 pendingIntState).1 = .error CppExc.nle :=
  ((extract_checks_exit_state (-128) 127 0 pendingIntState).1 (by decide)).1

/-- C4: the generated noexcept entry point catches every exception the
wrapped callable throws and returns normally with the exit state
non-normal: a pending exit at catch time is left untouched;
cppemacs::signal and cppemacs::thrown are replayed with exactly their
captured symbol and data; a std::exception becomes an error signal whose
data holds its what() message. -/
theorem module_function_invoke_total
    (f : EmacsState → Except CppExc Value × EmacsState)
    (st st' : EmacsState) (e : CppExc) (hf : f st = (.error e, st')) :
    module_function_invoke f st = (.ok 0, run_catching_handle_current e st')
    ∧ (run_catching_handle_current e st').pend ≠ .normal
    ∧ (st'.pend ≠ .normal → run_catching_handle_current e st' = st')
    ∧ (∀ s d, st'.pend = .normal → e = .sig s d →
        (run_catching_handle_current e st').pend = .sig s d)
    ∧ (∀ s d, st'.pend = .normal → e = .thr s d →
        (run_catching_handle_current e st').pend = .thr s d)
    ∧ (∀ msg, st'.pend = .normal → e = .runtimeError msg →
        ∃ ev dv mv, (run_catching_handle_current e st').pend = .sig ev dv
          ∧ (run_catching_handle_current e st').heap[ev]? = some (.symbol "error")
          ∧ (run_catching_handle_current e st').heap[dv]? = some (.list [mv])
          ∧ (run_catching_handle_current e st').heap[mv]? = some (.str msg)) := by
  refine ⟨?_, ?_, ?_, ?_, ?_, ?_⟩
  · simp [module_function_invoke, run_catching, hf]
  · by_cases hp : st'.pend = .normal
    · cases e with
      | sig s d => simp [run_catching_handle_current, hp, non_local_exit_signal]
      | thr s d => simp [run_catching_handle_current, hp, non_local_exit_throw]
      | nle =>
        simp only [run_catching_handle_current, hp]
        rw [error_call_state _ _ hp]
        simp
      | runtimeError msg =>
        simp only [run_catching_handle_current, hp]
        rw [error_call_state _ _ hp]
        simp
      | otherExc i =>
        simp only [run_catching_handle_current, hp]
        rw [error_call_state _ _ hp]
        simp
    · simp [run_catching_handle_current, hp]
  · intro hp
    simp [run_catching_handle_current, hp]
  · intro s d hp he
    subst he
    simp [run_catching_handle_current, hp, non_local_exit_signal]
  · intro s d hp he
    subst he
    simp [run_catching_handle_current, hp, non_local_exit_throw]
  · intro msg hp he
    subst he
    refine ⟨st'.heap.length, st'.heap.length + 1 + 1, st'.heap.length + 1,
      ?_, ?_, ?_, ?_⟩
    all_goals simp only [run_catching_handle_current, hp]
    all_goals rw [error_call_state _ _ hp]
    · rfl
    · exact get_append_len0₃ _ _ _ _
    · exact get_append_len2 _ _ _ _
    · exact get_append_len1 _ _ _ _

/-- C4 witness: a callable throwing runtime_error at a fresh
environment. -/
theorem module_function_invoke_total_witness :
    module_function_invoke (fun st => (.error (.runtimeError "boom"), st)) initState
      = (.ok 0, run_catching_handle_current (.runtimeError "boom") initState) :=
  (module_function_invoke_total (fun st => (.error (.runtimeError "boom"), st))
    initState initState (.runtimeError "boom") rfl).1

/-- C5 counterexample: with the host failing exactly at the put call that
links the placeholder to the fresh symbol (the fifth fallible host
operation of the hand-off), make returns null — the link was never
confirmed — yet release() has already happened: native code does not
retain ownership of the allocation until the property link is confirmed.
No leak results, because the GC owns the allocation through the
finalizer-bearing placeholder registered just before the release. -/
theorem boxed_handoff_releases_before_link :
    (handoff_run 1 4 7 42 [false, false, false, false, true]).1 = none
    ∧ Event.released ∈ (handoff_run 1 4 7 42 [false, false, false, false, true]).2.events
    ∧ destroys 42 (handoff_run 1 4 7 42 [false, false, false, false, true]).2.events = 0
    ∧ gcRegs 7 42 (handoff_run 1 4 7 42 [false, false, false, false, true]).2.events = 1 := by
  decide

/-- C5 as amended: in the boxed hand-off on a host without function
finalizers (Emacs 27), started from a normal state, native code
relinquishes ownership (release()) exactly when the creation of the
finalizer-bearing placeholder is confirmed — before the host property
link — and for every host failure schedule the allocation is destroyed
exactly once overall: immediately by native code when no placeholder was
registered, and through the GC finalizer otherwise.  It is never leaked
and never double-freed. -/
theorem boxed_handoff_destroys_exactly_once (minArity maxArity : Int)
    (fin fdata : Nat) (sched : List Bool) :
    destroys fdata (handoff_run minArity maxArity fin fdata sched).2.events
      + gcRegs fin fdata (handoff_run minArity maxArity fin fdata sched).2.events = 1
    ∧ (Event.released ∈ (handoff_run minArity maxArity fin fdata sched).2.events
        ↔ gcRegs fin fdata (handoff_run minArity maxArity fin fdata sched).2.events = 1) := by
  unfold handoff_run module_function_repr_make
  rcases sched with _ | ⟨b1, s1⟩
  · simp [make_function, intern, make_string, funcall, funcall_generic,
      make_user_ptr, nextFail, alloc, logEv, hostError, destroyNow,
      destroys, gcRegs]
  cases b1
  case true =>
    simp [make_function, intern, make_string, funcall, funcall_generic,
      make_user_ptr, nextFail, alloc, logEv, hostError, destroyNow,
      destroys, gcRegs]
  case false =>
  rcases s1 with _ | ⟨b2, s2⟩
  · simp [make_function, intern, make_string, funcall, funcall_generic,
      make_user_ptr, nextFail, alloc, logEv, hostError, destroyNow,
      destroys, gcRegs]
  cases b2
  case true =>
    simp [make_function, intern, make_string, funcall, funcall_generic,
      make_user_ptr, nextFail, alloc, logEv, hostError, destroyNow,
      destroys, gcRegs]
  case false =>
  rcases s2 with _ | ⟨b3, s3⟩
  · simp [make_function, intern, make_string, funcall, funcall_generic,
      make_user_ptr, nextFail, alloc, logEv, hostError, destroyNow,
      destroys, gcRegs]
  cases b3
  case true =>
    simp [make_function, intern, make_string, funcall, funcall_generic,
      make_user_ptr, nextFail, alloc, logEv, hostError, destroyNow,
      destroys, gcRegs]
  case false =>
  rcases s3 with _ | ⟨b4, s4⟩
  · simp [make_function, intern, make_string, funcall, funcall_generic,
      make_user_ptr, nextFail, alloc, logEv, hostError, destroyNow,
      destroys, gcRegs]
  cases b4
  case true =>
    simp [make_function, intern, make_string, funcall, funcall_generic,
      make_user_ptr, nextFail, alloc, logEv, hostError, destroyNow,
      destroys, gcRegs]
  case false =>
  rcases s4 with _ | ⟨b5, s5⟩
  · simp [make_function, intern, make_string, funcall, funcall_generic,
      make_user_ptr, nextFail, alloc, logEv, hostError, destroyNow,
      destroys, gcRegs]
  cases b5 <;>
    simp [make_function, intern, make_string, funcall, funcall_generic,
      make_user_ptr, nextFail, alloc, logEv, hostError, destroyNow,
      destroys, gcRegs]

end Cppemacs
